import Mathlib

/-!
Verification development for the cine-pulse content-scraper core.

The Go sources are shallowly embedded as executable Lean definitions:
strings become `List Char` (the relevant Go operations — `strings.Index`,
slicing at ASCII delimiters, the regexes used — act identically on byte
and on rune level for the delimiters involved), machine integers become
`Nat`/`Int` (no claim depends on overflow), `error` returns become
`Option`/`Except`, and external collaborators (HTTP scraper, model API,
SQLite, SMTP, wall clock) become explicit oracle parameters or state.
Recursive scanners are written with an explicit fuel argument (always
called with fuel larger than the input length, so the fuel never runs
out) to keep every definition kernel-reducible.
-/

namespace CinePulse

/-! ### Character classes and generic string helpers -/

/-- Go `regexp` class `\s` = `[\t\n\f\r ]`. -/
def isGoRegexSpace (c : Char) : Bool :=
  c == ' ' || c.toNat == 9 || c.toNat == 10 || c.toNat == 12 || c.toNat == 13

/-- JSON whitespace accepted by Go `encoding/json`: space, tab, newline, carriage return. -/
def isJsonSpace (c : Char) : Bool :=
  c == ' ' || c.toNat == 9 || c.toNat == 10 || c.toNat == 13

/-- `unicode.IsSpace` restricted to ASCII (all inputs in this development are ASCII
at the positions Go's `strings.TrimSpace` trims). -/
def isGoSpace (c : Char) : Bool :=
  c == ' ' || c.toNat == 9 || c.toNat == 10 || c.toNat == 11 || c.toNat == 12 || c.toNat == 13

def isDigitCh (c : Char) : Bool := c.isDigit

/-- The backtick character, `` ` ``. -/
def backtick : Char := Char.ofNat 96

/-- The single-quote character `'`. -/
def squote : Char := Char.ofNat 39

/-- The horizontal-ellipsis character `…` (U+2026). -/
def hellip : Char := Char.ofNat 0x2026

/-- Core of `strings.ReplaceAll` for a non-empty literal pattern: leftmost,
non-overlapping occurrences, scanning resumes after each replacement. -/
def replaceAllF (pat repl : List Char) : Nat → List Char → List Char
  | 0, s => s
  | _ + 1, [] => []
  | fuel + 1, c :: rest =>
    if pat.isPrefixOf (c :: rest) then
      repl ++ replaceAllF pat repl fuel (rest.drop (pat.length - 1))
    else c :: replaceAllF pat repl fuel rest

/-- `strings.ReplaceAll s pat repl` (for the non-empty patterns used in the source). -/
def goReplaceAll (pat repl s : List Char) : List Char :=
  replaceAllF pat repl (s.length + 1) s

/-- Core of `strings.Contains`. -/
def subContainsF (needle : List Char) : Nat → List Char → Bool
  | 0, _ => false
  | fuel + 1, s =>
    needle.isPrefixOf s ||
      (match s with
       | [] => false
       | _ :: rest => subContainsF needle fuel rest)

/-- `strings.Contains hay needle`. -/
def goContains (hay needle : List Char) : Bool :=
  subContainsF needle (hay.length + 1) hay

/-- Core of `strings.Split` around a non-empty separator. -/
def splitOnF (sep : List Char) : Nat → List Char → List Char → List (List Char)
  | 0, acc, s => [acc.reverse ++ s]
  | _ + 1, acc, [] => [acc.reverse]
  | fuel + 1, acc, c :: rest =>
    if sep.isPrefixOf (c :: rest) then
      acc.reverse :: splitOnF sep fuel [] (rest.drop (sep.length - 1))
    else splitOnF sep fuel (c :: acc) rest

/-- `strings.Split s sep` for non-empty `sep`. -/
def goSplit (sep s : List Char) : List (List Char) :=
  splitOnF sep (s.length + 1) [] s

/-- `strings.TrimSpace` (ASCII whitespace; see `isGoSpace`). -/
def goTrimSpace (s : List Char) : List Char :=
  ((s.dropWhile isGoSpace).reverse.dropWhile isGoSpace).reverse

/-- `strings.Index s c` for a single-character needle: index of the first occurrence. -/
def firstIdxOfAux (c : Char) : List Char → Nat → Option Nat
  | [], _ => none
  | d :: rest, i => if d == c then some i else firstIdxOfAux c rest (i + 1)

def firstIdxOf (c : Char) (s : List Char) : Option Nat := firstIdxOfAux c s 0

/-- `strings.LastIndex s c` for a single-character needle. -/
def lastIdxOfAux (c : Char) : List Char → Nat → Option Nat → Option Nat
  | [], _, acc => acc
  | d :: rest, i, acc => lastIdxOfAux c rest (i + 1) (if d == c then some i else acc)

def lastIdxOf (c : Char) (s : List Char) : Option Nat := lastIdxOfAux c s 0 none

/-- Go slice `s[a:b]`. -/
def sliceChars (s : List Char) (a b : Nat) : List Char :=
  (s.drop a).take (b - a)

def digitsToNat (ds : List Char) : Nat :=
  ds.foldl (fun a c => 10 * a + (c.toNat - 48)) 0

/-! ### The persisted record (`storage.Content`)

`Rating` is `*float64` in Go; it is modelled by the numeric literal that was
captured/parsed (no claim depends on the floating value, only on presence and
on the record it travels in). `Year` is `*int`, modelled as `Option Int`. -/

structure Content where
  title : String
  year : Option Int := none
  category : String := ""
  extraInfo : String := ""
  type : String := ""
  rating : Option String := none
  sourceURL : Option String := none
deriving Repr, DecidableEq

def emptyContent : Content :=
  { title := "", year := none, category := "", extraInfo := "", type := "",
    rating := none, sourceURL := none }

/-! ### Tier A: `extractContentManually`'s regex scanners

Go's `regexp` (RE2 with leftmost-first submatch semantics) applied to the
patterns of `extractContentManually`.  Each pattern starts with a literal
label such as `"title":`, so a faithful scanner tries each start position
from the left and at each position matches the pattern directly. -/

/-- One attempt of `"<label>":\s*"([^"]+)"` anchored at the start of `s`
(`label` includes the quotes and the colon). -/
def tryFieldAt (label : List Char) (s : List Char) : Option (List Char) :=
  if label.isPrefixOf s then
    match (s.drop label.length).dropWhile isGoRegexSpace with
    | q :: r2 =>
      if q == '"' then
        if (r2.takeWhile (fun c => !(c == '"'))).isEmpty then none
        else
          match r2.drop (r2.takeWhile (fun c => !(c == '"'))).length with
          | q2 :: _ =>
            if q2 == '"' then some (r2.takeWhile (fun c => !(c == '"'))) else none
          | [] => none
      else none
    | [] => none
  else none

/-- One attempt of `"<label>":\s*(\d+)` anchored at the start of `s`. -/
def tryNatAt (label : List Char) (s : List Char) : Option (List Char) :=
  if label.isPrefixOf s then
    let r := (s.drop label.length).dropWhile isGoRegexSpace
    let v := r.takeWhile isDigitCh
    if v.isEmpty then none else some v
  else none

/-- One attempt of `"rating":\s*(\d+(?:\.\d+)?)` anchored at the start of `s`. -/
def tryRatingAt (label : List Char) (s : List Char) : Option (List Char) :=
  if label.isPrefixOf s then
    let r := (s.drop label.length).dropWhile isGoRegexSpace
    let d1 := r.takeWhile isDigitCh
    if d1.isEmpty then none
    else
      match r.drop d1.length with
      | '.' :: r3 =>
        let d2 := r3.takeWhile isDigitCh
        if d2.isEmpty then some d1 else some (d1 ++ '.' :: d2)
      | _ => some d1
  else none

/-- `FindStringSubmatch`: the leftmost position where `try1` matches. -/
def scanFor {α : Type} (try1 : List Char → Option α) : Nat → List Char → Option α
  | 0, _ => none
  | fuel + 1, s =>
    match try1 s with
    | some v => some v
    | none =>
      match s with
      | [] => none
      | _ :: rest => scanFor try1 fuel rest

def titleLabel : List Char := "\"title\":".data
def yearLabel : List Char := "\"year\":".data
def categoryLabel : List Char := "\"category\":".data
def extraInfoLabel : List Char := "\"extra_info\":".data
def typeLabel : List Char := "\"type\":".data
def ratingLabel : List Char := "\"rating\":".data

def findQuotedVal (label : List Char) (s : List Char) : Option (List Char) :=
  scanFor (tryFieldAt label) (s.length + 1) s

def findYearVal (s : List Char) : Option (List Char) :=
  scanFor (tryNatAt yearLabel) (s.length + 1) s

def findRatingVal (s : List Char) : Option (List Char) :=
  scanFor (tryRatingAt ratingLabel) (s.length + 1) s

/-- `FindAllString` of `\{[^{}]*\}`: all non-overlapping leftmost matches of a
brace block whose interior holds no further braces. -/
def braceBlocksF : Nat → List Char → List (List Char)
  | 0, _ => []
  | fuel + 1, s =>
    match s with
    | [] => []
    | c :: rest =>
      if c == '{' then
        let inner := rest.takeWhile (fun d => !(d == '{') && !(d == '}'))
        match rest.drop inner.length with
        | d :: rest2 =>
          if d == '}' then ('{' :: (inner ++ ['}'])) :: braceBlocksF fuel rest2
          else braceBlocksF fuel rest
        | [] => braceBlocksF fuel rest
      else braceBlocksF fuel rest

def braceBlocks (s : List Char) : List (List Char) := braceBlocksF (s.length + 1) s

/-- The per-object validation of `extractContentManually` (scheduler job file):
title required, year optional (digits, `strconv.Atoi` cannot fail on them in
the unbounded model), category required and not `"Korean"`, extra_info
defaulting to `""`, type required and exactly `"movie"`/`"series"`, rating
optional. -/
def validateObject (obj : List Char) : Option Content :=
  match findQuotedVal titleLabel obj with
  | none => none
  | some t =>
    let yr : Option Int := (findYearVal obj).map (fun d => (digitsToNat d : Int))
    match findQuotedVal categoryLabel obj with
    | none => none
    | some cat =>
      if String.mk cat = "Korean" then none
      else
        let ei : String := ((findQuotedVal extraInfoLabel obj).map String.mk).getD ""
        match findQuotedVal typeLabel obj with
        | none => none
        | some ty =>
          if String.mk ty = "movie" ∨ String.mk ty = "series" then
            some { title := String.mk t, year := yr, category := String.mk cat,
                   extraInfo := ei, type := String.mk ty,
                   rating := (findRatingVal obj).map String.mk, sourceURL := none }
          else none

/-- `extractContentManually`: find every flat brace block, validate each,
keep the valid ones in order. -/
def extractContentManually (response : String) : List Content :=
  (braceBlocks response.data).filterMap validateObject

/-! ### Tier B: the textual repairs of `preprocessModelResponse`

Each Go `regexp.ReplaceAllString` call is embedded as a direct scanner with
Go's leftmost-first, non-overlapping-match, greedy-with-backtracking
semantics for that particular pattern. -/

/-- `"([^"]+)" :` → `"$1":` — drop the space between a quoted field name and
its colon. -/
def fixSpaceColonF : Nat → List Char → List Char
  | 0, s => s
  | _ + 1, [] => []
  | fuel + 1, c :: rest =>
    if c == '"' then
      let v := rest.takeWhile (fun d => !(d == '"'))
      if v.isEmpty then c :: fixSpaceColonF fuel rest
      else
        match rest.drop v.length with
        | '"' :: ' ' :: ':' :: rest2 =>
          ('"' :: v) ++ '"' :: ':' :: fixSpaceColonF fuel rest2
        | _ => c :: fixSpaceColonF fuel rest
    else c :: fixSpaceColonF fuel rest

/-- First character class of the bare-scalar patterns: `[^"{}\[\],\d]`. -/
def bareFirst (d : Char) : Bool :=
  !(d == '"' || d == '{' || d == '}' || d == '[' || d == ']' || d == ',') && !d.isDigit

/-- Tail character class of the bare-scalar patterns: `[^{}\[\],\s]`. -/
def bareTail (d : Char) : Bool :=
  !(d == '{' || d == '}' || d == '[' || d == ']' || d == ',') && !(isGoRegexSpace d)

/-- Try `([^"{}\[\],\d][^{}\[\],\s]*),` at offset `k` into `rest` (the text
after a `:`); on success return the capture and the number of characters of
`rest` the whole match consumed. -/
def tryBareAt (rest : List Char) (k : Nat) : Option (List Char × Nat) :=
  match rest.drop k with
  | [] => none
  | d :: r2 =>
    if bareFirst d then
      let run := r2.takeWhile bareTail
      match r2.drop run.length with
      | ',' :: _ => some (d :: run, k + 1 + run.length + 1)
      | _ => none
    else none

/-- Greedy backtracking of `: *`: try the largest number of spaces first. -/
def tryBareFrom (rest : List Char) : Nat → Option (List Char × Nat)
  | 0 => tryBareAt rest 0
  | k + 1 =>
    match tryBareAt rest (k + 1) with
    | some v => some v
    | none => tryBareFrom rest k

/-- `: *([^"{}\[\],\d][^{}\[\],\s]*),` → `:"$1",` — quote a bare scalar value
that precedes a comma. -/
def fixBareCommaF : Nat → List Char → List Char
  | 0, s => s
  | _ + 1, [] => []
  | fuel + 1, c :: rest =>
    if c == ':' then
      match tryBareFrom rest ((rest.takeWhile (fun d => d == ' ')).length) with
      | some (cap, n) =>
        ':' :: '"' :: (cap ++ '"' :: ',' :: fixBareCommaF fuel (rest.drop n))
      | none => ':' :: fixBareCommaF fuel rest
    else c :: fixBareCommaF fuel rest

/-- Try `([^"{}\[\],\d][^{}\[\],\s]*)$` at offset `k` into `rest` (anchored at
the end of the text — Go's `$` without multiline mode). -/
def tryBareEndAt (rest : List Char) (k : Nat) : Option (List Char) :=
  match rest.drop k with
  | [] => none
  | d :: r2 =>
    if bareFirst d then
      let run := r2.takeWhile bareTail
      if (r2.drop run.length).isEmpty then some (d :: run) else none
    else none

def tryBareEndFrom (rest : List Char) : Nat → Option (List Char)
  | 0 => tryBareEndAt rest 0
  | k + 1 =>
    match tryBareEndAt rest (k + 1) with
    | some v => some v
    | none => tryBareEndFrom rest k

/-- `: *([^"{}\[\],\d][^{}\[\],\s]*)$` → `:"$1"` — quote a bare scalar value
at the end of the text. -/
def fixBareEndF : Nat → List Char → List Char
  | 0, s => s
  | _ + 1, [] => []
  | fuel + 1, c :: rest =>
    if c == ':' then
      match tryBareEndFrom rest ((rest.takeWhile (fun d => d == ' ')).length) with
      | some cap => ':' :: '"' :: (cap ++ ['"'])
      | none => ':' :: fixBareEndF fuel rest
    else c :: fixBareEndF fuel rest

/-- `[\x00-\x1F\x7F]` → `` — strip control characters. -/
def stripCtl (s : List Char) : List Char :=
  s.filter (fun c => !(c.toNat ≤ 0x1F || c.toNat == 0x7F))

/-- `,\s*C` → `C` for a closing character `C` (`}` or `]`) — remove a trailing
comma before a closing brace/bracket. -/
def fixTrailingF (close : Char) : Nat → List Char → List Char
  | 0, s => s
  | _ + 1, [] => []
  | fuel + 1, c :: rest =>
    if c == ',' then
      let ws := rest.takeWhile isGoRegexSpace
      match rest.drop ws.length with
      | d :: rest2 =>
        if d == close then close :: fixTrailingF close fuel rest2
        else c :: fixTrailingF close fuel rest
      | [] => c :: fixTrailingF close fuel rest
    else c :: fixTrailingF close fuel rest

def fixSpaceColon (s : List Char) : List Char := fixSpaceColonF (s.length + 1) s
def fixBareComma (s : List Char) : List Char := fixBareCommaF (s.length + 1) s
def fixBareEnd (s : List Char) : List Char := fixBareEndF (s.length + 1) s
def fixTrailing (close : Char) (s : List Char) : List Char :=
  fixTrailingF close (s.length + 1) s

/-! ### Go `encoding/json` -/

/-- JSON values as Go's decoder sees them; numbers keep their literal (the
decoder re-parses the literal per target type). -/
inductive Jval where
  | null : Jval
  | jbool : Bool → Jval
  | num : String → Jval
  | str : String → Jval
  | arr : List Jval → Jval
  | obj : List (String × Jval) → Jval
deriving Repr

def hexVal? (c : Char) : Option Nat :=
  if c.isDigit then some (c.toNat - 48)
  else if 'a' ≤ c ∧ c ≤ 'f' then some (c.toNat - 87)
  else if 'A' ≤ c ∧ c ≤ 'F' then some (c.toNat - 55)
  else none

def readHex4 (s : List Char) : Option Nat :=
  match s with
  | a :: b :: c :: d :: _ =>
    match hexVal? a, hexVal? b, hexVal? c, hexVal? d with
    | some x, some y, some z, some w => some (((x * 16 + y) * 16 + z) * 16 + w)
    | _, _, _, _ => none
  | _ => none

/-- Body of a JSON string (the opening quote already consumed): decoded
characters and the rest of the input.  Raw control characters and invalid
escapes are errors; lone surrogates become U+FFFD as in Go's `unquote`. -/
def parseStringBodyF : Nat → List Char → Option (List Char × List Char)
  | 0, _ => none
  | fuel + 1, s =>
    match s with
    | [] => none
    | c :: rest =>
      if c == '"' then some ([], rest)
      else if c == '\\' then
        match rest with
        | [] => none
        | e :: r2 =>
          if e == '"' then (parseStringBodyF fuel r2).map (fun p => ('"' :: p.1, p.2))
          else if e == '\\' then (parseStringBodyF fuel r2).map (fun p => ('\\' :: p.1, p.2))
          else if e == '/' then (parseStringBodyF fuel r2).map (fun p => ('/' :: p.1, p.2))
          else if e == 'b' then (parseStringBodyF fuel r2).map (fun p => (Char.ofNat 8 :: p.1, p.2))
          else if e == 'f' then (parseStringBodyF fuel r2).map (fun p => (Char.ofNat 12 :: p.1, p.2))
          else if e == 'n' then (parseStringBodyF fuel r2).map (fun p => ('\n' :: p.1, p.2))
          else if e == 'r' then (parseStringBodyF fuel r2).map (fun p => (Char.ofNat 13 :: p.1, p.2))
          else if e == 't' then (parseStringBodyF fuel r2).map (fun p => ('\t' :: p.1, p.2))
          else if e == 'u' then
            match readHex4 r2 with
            | none => none
            | some h =>
              if 0xD800 ≤ h ∧ h < 0xDC00 then
                match r2.drop 4 with
                | '\\' :: 'u' :: r4 =>
                  match readHex4 r4 with
                  | some l =>
                    if 0xDC00 ≤ l ∧ l < 0xE000 then
                      (parseStringBodyF fuel (r4.drop 4)).map
                        (fun p => (Char.ofNat (0x10000 + (h - 0xD800) * 0x400 + (l - 0xDC00)) :: p.1, p.2))
                    else
                      (parseStringBodyF fuel (r2.drop 4)).map
                        (fun p => (Char.ofNat 0xFFFD :: p.1, p.2))
                  | none =>
                    (parseStringBodyF fuel (r2.drop 4)).map
                      (fun p => (Char.ofNat 0xFFFD :: p.1, p.2))
                | _ =>
                  (parseStringBodyF fuel (r2.drop 4)).map
                    (fun p => (Char.ofNat 0xFFFD :: p.1, p.2))
              else if 0xDC00 ≤ h ∧ h < 0xE000 then
                (parseStringBodyF fuel (r2.drop 4)).map
                  (fun p => (Char.ofNat 0xFFFD :: p.1, p.2))
              else
                (parseStringBodyF fuel (r2.drop 4)).map
                  (fun p => (Char.ofNat h :: p.1, p.2))
          else none
      else if c.toNat < 0x20 then none
      else (parseStringBodyF fuel rest).map (fun p => (c :: p.1, p.2))

def parseStringBody (s : List Char) : Option (List Char × List Char) :=
  parseStringBodyF (s.length + 1) s

/-- Exponent part `([eE][+-]?[0-9]+)?` after the integer/fraction part `acc`. -/
def parseNumExp (acc : List Char) (r : List Char) : Option (Jval × List Char) :=
  match r with
  | e :: r2 =>
    if e == 'e' || e == 'E' then
      match r2 with
      | c :: r3 =>
        if c == '+' || c == '-' then
          let ds := r3.takeWhile isDigitCh
          if ds.isEmpty then none
          else some (Jval.num (String.mk (acc ++ e :: c :: ds)), r3.drop ds.length)
        else
          let ds := r2.takeWhile isDigitCh
          if ds.isEmpty then none
          else some (Jval.num (String.mk (acc ++ e :: ds)), r2.drop ds.length)
      | [] => none
    else some (Jval.num (String.mk acc), r)
  | [] => some (Jval.num (String.mk acc), [])

/-- Fraction part `(\.[0-9]+)?` after the integer part `acc`, then exponent. -/
def parseNumFrac (acc : List Char) (r : List Char) : Option (Jval × List Char) :=
  match r with
  | '.' :: r2 =>
    let ds := r2.takeWhile isDigitCh
    if ds.isEmpty then none
    else parseNumExp (acc ++ '.' :: ds) (r2.drop ds.length)
  | _ => parseNumExp acc r

/-- A JSON number literal: `-?(0|[1-9][0-9]*)(\.[0-9]+)?([eE][+-]?[0-9]+)?`.
A digit directly after a leading `0` is a syntax error, as in Go. -/
def parseNumLit (s : List Char) : Option (Jval × List Char) :=
  let core : List Char → List Char → Option (Jval × List Char) := fun neg s1 =>
    match s1 with
    | '0' :: r =>
      match r with
      | d :: _ => if d.isDigit then none else parseNumFrac (neg ++ ['0']) r
      | [] => parseNumFrac (neg ++ ['0']) []
    | d :: r =>
      if d.isDigit then
        let ds := r.takeWhile isDigitCh
        parseNumFrac (neg ++ d :: ds) (r.drop ds.length)
      else none
    | [] => none
  match s with
  | '-' :: r => core ['-'] r
  | _ => core [] s

mutual

/-- One JSON value (leading whitespace allowed), as Go's scanner accepts it. -/
def parseValueF : Nat → List Char → Option (Jval × List Char)
  | 0, _ => none
  | fuel + 1, s =>
    match s.dropWhile isJsonSpace with
    | 'n' :: 'u' :: 'l' :: 'l' :: r => some (Jval.null, r)
    | 't' :: 'r' :: 'u' :: 'e' :: r => some (Jval.jbool true, r)
    | 'f' :: 'a' :: 'l' :: 's' :: 'e' :: r => some (Jval.jbool false, r)
    | '"' :: r => (parseStringBody r).map (fun p => (Jval.str (String.mk p.1), p.2))
    | '[' :: r =>
      match r.dropWhile isJsonSpace with
      | ']' :: r2 => some (Jval.arr [], r2)
      | r1 => (parseElemsF fuel r1).map (fun p => (Jval.arr p.1, p.2))
    | '{' :: r =>
      match r.dropWhile isJsonSpace with
      | '}' :: r2 => some (Jval.obj [], r2)
      | r1 => (parseFieldsF fuel r1).map (fun p => (Jval.obj p.1, p.2))
    | s1 => parseNumLit s1

/-- The elements of a non-empty JSON array, up to and including the `]`. -/
def parseElemsF : Nat → List Char → Option (List Jval × List Char)
  | 0, _ => none
  | fuel + 1, s =>
    match parseValueF fuel s with
    | none => none
    | some (v, r) =>
      match r.dropWhile isJsonSpace with
      | ',' :: r2 => (parseElemsF fuel r2).map (fun p => (v :: p.1, p.2))
      | ']' :: r2 => some ([v], r2)
      | _ => none

/-- The fields of a non-empty JSON object, up to and including the `}`. -/
def parseFieldsF : Nat → List Char → Option (List (String × Jval) × List Char)
  | 0, _ => none
  | fuel + 1, s =>
    match s.dropWhile isJsonSpace with
    | '"' :: r =>
      match parseStringBody r with
      | none => none
      | some (k, r2) =>
        match r2.dropWhile isJsonSpace with
        | ':' :: r4 =>
          match parseValueF fuel r4 with
          | none => none
          | some (v, r5) =>
            match r5.dropWhile isJsonSpace with
            | ',' :: r7 => (parseFieldsF fuel r7).map (fun p => ((String.mk k, v) :: p.1, p.2))
            | '}' :: r7 => some ([(String.mk k, v)], r7)
            | _ => none
        | _ => none
    | _ => none

end

/-- `json.Unmarshal`'s syntax acceptance of a whole input: one value, then
only whitespace.  The fuel `2·length+4` never runs out: at least one input
character is consumed for every two units of fuel spent. -/
def parseJsonTop (s : String) : Option Jval :=
  match parseValueF (2 * s.length + 4) s.data with
  | some (v, rest) => if (rest.dropWhile isJsonSpace).isEmpty then some v else none
  | none => none

/-- Whether `json.Unmarshal(data, &x)` for `x : []interface{}` returns no
error: the input must be a well-formed array (or `null`, a no-op). -/
def unmarshalArrayOk (s : String) : Bool :=
  match parseJsonTop s with
  | some (Jval.arr _) => true
  | some Jval.null => true
  | _ => false

/-- `-?[0-9]+` as an `Int`; a fraction or exponent in the literal makes Go's
decode of a JSON number into a field of type `int` fail. -/
def parseIntLit (lit : String) : Option Int :=
  match lit.data with
  | '-' :: ds => if ds ≠ [] ∧ ds.all isDigitCh then some (-(digitsToNat ds : Int)) else none
  | ds => if ds ≠ [] ∧ ds.all isDigitCh then some (digitsToNat ds : Int) else none

/-- Decode one object field into a `Content`, as Go's struct decoder does:
keys are matched to the json tags case-insensitively (ASCII), `null` leaves
the field untouched, a type mismatch is an error, unknown keys are ignored. -/
def setContentField (c : Content) (kv : String × Jval) : Option Content :=
  let key := String.mk (kv.1.data.map Char.toLower)
  if key = "title" then
    match kv.2 with
    | Jval.str s => some { c with title := s }
    | Jval.null => some c
    | _ => none
  else if key = "year" then
    match kv.2 with
    | Jval.num lit =>
      match parseIntLit lit with
      | some n => some { c with year := some n }
      | none => none
    | Jval.null => some c
    | _ => none
  else if key = "category" then
    match kv.2 with
    | Jval.str s => some { c with category := s }
    | Jval.null => some c
    | _ => none
  else if key = "extra_info" then
    match kv.2 with
    | Jval.str s => some { c with extraInfo := s }
    | Jval.null => some c
    | _ => none
  else if key = "type" then
    match kv.2 with
    | Jval.str s => some { c with type := s }
    | Jval.null => some c
    | _ => none
  else if key = "rating" then
    match kv.2 with
    | Jval.num lit => some { c with rating := some lit }
    | Jval.null => some c
    | _ => none
  else if key = "source_url" then
    match kv.2 with
    | Jval.str s => some { c with sourceURL := some s }
    | Jval.null => some c
    | _ => none
  else some c

/-- Decode one array element into a `Content` (a zero value for `null`,
field-by-field for an object, an error otherwise). -/
def decodeContentVal : Jval → Option Content
  | Jval.null => some emptyContent
  | Jval.obj kvs => kvs.foldlM setContentField emptyContent
  | _ => none

/-- `json.Unmarshal(data, &contents)` for `contents : []storage.Content`:
`none` exactly when Go reports an error (the caller then discards the partial
result, so only the success value matters). -/
def unmarshalContents (s : String) : Option (List Content) :=
  match parseJsonTop s with
  | some (Jval.arr vs) => vs.mapM decodeContentVal
  | some Jval.null => some []
  | _ => none

/-! ### `json.Marshal` of a decoded `map[string]interface{}`

`reformatJSON` re-encodes each fragment it validated.  Go's `Marshal` of a
map sorts the keys, keeps only the last value of a duplicated key, escapes
strings (HTML-escaping `<`, `>`, `&`), and re-renders numbers from the
parsed `float64`.  The numeric re-rendering is modelled by the original
literal — no claim depends on the printed digits of a re-encoded number. -/

def hexDigitCh (n : Nat) : Char :=
  if n < 10 then Char.ofNat (48 + n) else Char.ofNat (87 + n)

def escapeJsonChar (c : Char) : List Char :=
  if c == '"' then ['\\', '"']
  else if c == '\\' then ['\\', '\\']
  else if c == '\n' then ['\\', 'n']
  else if c.toNat == 13 then ['\\', 'r']
  else if c == '\t' then ['\\', 't']
  else if c == '<' then ['\\', 'u', '0', '0', '3', 'c']
  else if c == '>' then ['\\', 'u', '0', '0', '3', 'e']
  else if c == '&' then ['\\', 'u', '0', '0', '2', '6']
  else if c.toNat < 0x20 then
    ['\\', 'u', '0', '0', hexDigitCh (c.toNat / 16), hexDigitCh (c.toNat % 16)]
  else if c.toNat == 0x2028 then ['\\', 'u', '2', '0', '2', '8']
  else if c.toNat == 0x2029 then ['\\', 'u', '2', '0', '2', '9']
  else [c]

def escapeJsonStr (s : List Char) : List Char :=
  s.foldr (fun c acc => escapeJsonChar c ++ acc) []

/-- Lexicographic order on keys, as Go sorts map keys byte-wise (the keys in
play are ASCII, where rune order equals byte order). -/
def charListLe : List Char → List Char → Bool
  | [], _ => true
  | _ :: _, [] => false
  | a :: as', b :: bs' =>
    if a.toNat < b.toNat then true
    else if b.toNat < a.toNat then false
    else charListLe as' bs'

def insertByKey (kv : String × Jval) : List (String × Jval) → List (String × Jval)
  | [] => [kv]
  | h :: t =>
    if charListLe kv.1.data h.1.data then kv :: h :: t else h :: insertByKey kv t

def sortByKey : List (String × Jval) → List (String × Jval)
  | [] => []
  | h :: t => insertByKey h (sortByKey t)

/-- Keep only the last occurrence of each key, as decoding into a Go map does. -/
def collapseLast (fields : List (String × Jval)) : List (String × Jval) :=
  fields.foldl (fun acc kv => (acc.filter (fun o => !(o.1 == kv.1))) ++ [kv]) []

def joinComma : List (List Char) → List Char
  | [] => []
  | x :: rest => rest.foldl (fun a y => a ++ ',' :: y) x

/-- Render a decoded JSON value back to text (`json.Marshal`).  The fuel is
called with more than the depth of any value parsed from a finite string. -/
def renderJvalF : Nat → Jval → List Char
  | 0, _ => []
  | fuel + 1, v =>
    match v with
    | Jval.null => ['n', 'u', 'l', 'l']
    | Jval.jbool true => ['t', 'r', 'u', 'e']
    | Jval.jbool false => ['f', 'a', 'l', 's', 'e']
    | Jval.num lit => lit.data
    | Jval.str s => '"' :: (escapeJsonStr s.data ++ ['"'])
    | Jval.arr es => '[' :: (joinComma (es.map (renderJvalF fuel)) ++ [']'])
    | Jval.obj fs =>
      '{' :: (joinComma ((sortByKey (collapseLast fs)).map
        (fun kv => '"' :: (escapeJsonStr kv.1.data ++ '"' :: ':' :: renderJvalF fuel kv.2))) ++ ['}'])

/-! ### `reformatJSON`: last-resort fragment reconstruction (Tier C) -/

/-- The object fragments of `reformatJSON` after the `},` split and the
brace fix-ups, before validation. -/
def reformatFragments (input : String) : List (List Char) :=
  let cs := input.data
  let inner := goTrimSpace (cs.drop 1).dropLast
  let parts := goSplit ['}', ','] inner
  let parts :=
    if parts.length > 1 then
      let last := (parts.getLast?).getD []
      let lastFixed := if last.getLast? == some '}' then last else last ++ ['}']
      (parts.dropLast.map (fun p => p ++ ['}'])) ++ [lastFixed]
    else parts
  parts.map (fun part =>
    let t := goTrimSpace part
    let t := match t with
             | '{' :: _ => t
             | _ => '{' :: t
    if t.getLast? == some '}' then t else t ++ ['}'])

/-- The fragments of `reformatJSON` that survive: each must parse as a JSON
object; a survivor is re-encoded with `json.Marshal` (see `renderJvalF`). -/
def reformatValidObjects (input : String) : List (List Char) :=
  (reformatFragments input).filterMap (fun t =>
    match parseJsonTop (String.mk t) with
    | some (Jval.obj fs) => some (renderJvalF (t.length + 2) (Jval.obj fs))
    | _ => none)

/-- `reformatJSON`: if the input is not bracketed as an array, give up with
`"[]"`; otherwise split the interior on `},`, re-close each fragment, keep
the fragments that parse as objects, and join the survivors — `"[]"` when
none survives. -/
def reformatJSON (input : String) : String :=
  let cs := input.data
  if (cs.head? == some '[') && (cs.getLast? == some ']') then
    let valid := reformatValidObjects input
    if valid.isEmpty then "[]"
    else String.mk ('[' :: (joinComma valid ++ [']']))
  else "[]"

/-! ### `preprocessModelResponse`: fence stripping, array isolation, repairs -/

def fenceJson : List Char := "```json".data
def fence : List Char := "```".data
def escQuotePat : List Char := ['\\', '"']

/-- The in-order repair sequence applied to the isolated array slice
(backtick removal, space-before-colon, bare scalars before a comma, bare
scalar at the end, escaped-quote collapse, control-character strip, trailing
commas before `}` and before `]`). -/
def repairSequence (slice : List Char) : List Char :=
  let jp := slice.filter (fun c => !(c == backtick))
  let jp := fixSpaceColon jp
  let jp := fixBareComma jp
  let jp := fixBareEnd jp
  let jp := goReplaceAll escQuotePat ['"'] jp
  let jp := stripCtl jp
  let jp := fixTrailing '}' jp
  fixTrailing ']' jp

/-- The narrower second repair pass: collapse doubled double quotes, collapse
doubled single quotes, normalize the ellipsis glyph to three periods. -/
def narrowRepair (s : List Char) : List Char :=
  let jp := goReplaceAll ['"', '"'] ['"'] s
  let jp := goReplaceAll [squote, squote] [squote] jp
  goReplaceAll [hellip] ['.', '.', '.'] jp

def stripFences (s : List Char) : List Char :=
  goReplaceAll fence [] (goReplaceAll fenceJson [] s)

/-- `preprocessModelResponse`, transliterated: fences stripped, the slice
from the first `[` to the last `]` isolated (a `{…}` object wrapped as a
one-element array when no `[` occurs at all; `"[]"` otherwise), the repair
sequence applied, and — if the repaired slice does not parse as an array —
one narrower repair pass with exactly one reparse, falling back to
`reformatJSON`. -/
def preprocessCore (response0 : List Char) : List Char :=
  let response := stripFences response0
  match firstIdxOf '[' response with
  | none =>
    match firstIdxOf '{' response with
    | some os =>
      match lastIdxOf '}' response with
      | some oe =>
        if os < oe then '[' :: (sliceChars response os (oe + 1) ++ [']'])
        else ['[', ']']
      | none => ['[', ']']
    | none => ['[', ']']
  | some si =>
    match lastIdxOf ']' response with
    | none => ['[', ']']
    | some ei =>
      if ei ≤ si then ['[', ']']
      else
        let jsonPart := repairSequence (sliceChars response si (ei + 1))
        if unmarshalArrayOk (String.mk jsonPart) then jsonPart
        else
          let jsonPart := narrowRepair jsonPart
          if unmarshalArrayOk (String.mk jsonPart) then jsonPart
          else (reformatJSON (String.mk jsonPart)).data

def preprocessModelResponse (response : String) : String :=
  String.mk (preprocessCore response.data)

/-! ### The normalization pipeline of the Gemini branch of `Run` -/

/-- Which extraction strategy produced the pipeline's output: the manual
regex scan (`extractContentManually`, spec Tier A) or the
preprocess-and-unmarshal fallback (spec Tiers B/C). -/
inductive ExtractionPath where
  | manual : ExtractionPath
  | fallback : ExtractionPath
deriving Repr, DecidableEq

/-- The normalization pipeline as `Run` executes it for a Gemini response:
manual extraction first; only when it yields nothing, preprocess and
unmarshal (a parse error leaves `contents = nil`, i.e. `[]`). -/
def normalizeResponseT (response : String) : List Content × ExtractionPath :=
  let m := extractContentManually response
  if m.isEmpty then
    match unmarshalContents (preprocessModelResponse response) with
    | some l => (l, ExtractionPath.fallback)
    | none => ([], ExtractionPath.fallback)
  else (m, ExtractionPath.manual)

/-! ### `SQLiteStorage.SaveContent`: upsert by natural key (title, type)

The `content` table is modelled as a list of rows; `CURRENT_TIMESTAMP` is an
explicit `now : Nat` argument.  The embedding is the success path of the SQL
statements (driver failures are a separate per-record oracle in the run
model, `RunEnv.saveOk`). -/

structure ContentRow where
  content : Content
  scrapedAt : Nat
  createdAt : Nat
  updatedAt : Nat
deriving Repr, DecidableEq

/-- `WHERE title = ? AND type = ?` (SQLite string equality, case-sensitive). -/
def keyMatches (r : ContentRow) (c : Content) : Bool :=
  r.content.title == c.title && r.content.type == c.type

/-- `SELECT EXISTS(SELECT 1 FROM content WHERE title = ? AND type = ?)`. -/
def hasContentKey (rows : List ContentRow) (c : Content) : Bool :=
  rows.any (fun r => keyMatches r c)

/-- The `UPDATE` branch applied to one matching row: only year, category,
extra_info, rating, source_url and updated_at change. -/
def updateRow (r : ContentRow) (c : Content) (now : Nat) : ContentRow :=
  { r with
    content := { r.content with
                 year := c.year, category := c.category, extraInfo := c.extraInfo,
                 rating := c.rating, sourceURL := c.sourceURL },
    updatedAt := now }

/-- `SaveContent`: update the matching rows when the key exists, otherwise
insert a fresh row with scraped_at = created_at = updated_at = now. -/
def saveContent (rows : List ContentRow) (c : Content) (now : Nat) : List ContentRow :=
  if hasContentKey rows c then
    rows.map (fun r => if keyMatches r c then updateRow r c now else r)
  else
    rows ++ [{ content := c, scrapedAt := now, createdAt := now, updatedAt := now }]

/-! ### `ContentScraperJob.Run`

External collaborators become oracles in a `RunEnv`: `cancelledAt i` is
whether `ctx.Done()` has fired at the checkpoint before the `i`-th source,
`scrape` is `ScraperInterface.Scrape` (`none` = error), the model oracles
cover `os.Getenv`, `CreateModel` and `GenerateText`, and `saveOk n` is
whether the `n`-th `SaveContent` call of the run succeeds.  The run state
accumulates what the job accumulates: the successfully persisted records (in
order), `totalContentScraped`, `allScrapedContent`, and the save-attempt
counter that drives the `saveOk` oracle. -/

structure RunEnv where
  cancelledAt : Nat → Bool
  scrape : String → Option String
  geminiKey : Option String
  geminiCreateOk : Bool
  geminiGen : String → Option String
  openaiKey : Option String
  openaiCreateOk : Bool
  openaiGen : String → Option String
  saveOk : Nat → Bool

structure RunState where
  saved : List Content
  total : Nat
  allScraped : List Content
  attempts : Nat
deriving Repr, DecidableEq

def initialRunState : RunState :=
  { saved := [], total := 0, allScraped := [], attempts := 0 }

/-- Outcome of a run: `completed` carries the notification payload handed to
`EmailNotifier.NotifyContentUpdate` (`none` when no email is sent);
`cancelled` is the early `return ctx.Err()`. -/
inductive RunOutcome where
  | completed : Option (List Content × List String) → RunOutcome
  | cancelled : RunOutcome
deriving Repr, DecidableEq

/-- `buildContentExtractionPrompt` (the raw-string literal of the source; the
braces of the schema are written `\x7b`/`\x7d`). -/
def buildContentExtractionPrompt : String :=
  "You are a specialized JSON extraction tool. Extract movies and series from the provided text into a clean JSON array.\n\nEach entry must follow this exact schema:\n\x7b\n  \"title\": string,\n  \"year\": number (for movies only, if available),\n  \"category\": string (\"Hollywood\", \"Foreign\", \"Anime\", \"TV Series\"),\n  \"extra_info\": string (e.g., \"Download Hollywood Movie\", \"Episode 15–18 Added\", \"Complete\"),\n  \"type\": string (\"movie\" or \"series\"),\n  \"rating\": number (optional, if available, on a scale of 1-10)\n\x7d\n\nCritical rules:\n1. Output ONLY the raw JSON array with no explanations, no markdown code blocks, and no backticks\n2. Do not include Korean content\n3. For movies, extract year as an integer if available\n4. For series, ignore the year unless explicitly mentioned\n5. Preserve episode/season information in extra_info\n6. Ensure the output is valid parseable JSON with no additional text\n\nExamples of correct format:\n[\x7b\"title\":\"Movie 1\",\"year\":2023,\"category\":\"Hollywood\",\"extra_info\":\"Action\",\"type\":\"movie\"\x7d,\x7b\"title\":\"Series 1\",\"category\":\"TV Series\",\"extra_info\":\"Season 2\",\"type\":\"series\"\x7d]\n\nYOUR ENTIRE RESPONSE MUST BE A VALID JSON ARRAY ONLY. DO NOT INCLUDE ANY OTHER TEXT.\n"

/-- The Gemini branch of `Run` for one source: skipped when
`GEMINI_API_KEY` is empty; a `CreateModel` or `GenerateText` failure is
logged and leaves `contents` empty; otherwise the response goes through the
normalization pipeline. -/
def geminiAttempt (env : RunEnv) (input : String) : List Content :=
  match env.geminiKey with
  | none => []
  | some _ =>
    if env.geminiCreateOk then
      match env.geminiGen input with
      | some resp => (normalizeResponseT resp).1
      | none => []
    else []

/-- The OpenAI branch of `Run` for one source: only preprocess + unmarshal
(no manual extraction), a failure at any step leaves `contents` empty. -/
def openaiAttempt (env : RunEnv) (input : String) : List Content :=
  match env.openaiKey with
  | none => []
  | some _ =>
    if env.openaiCreateOk then
      match env.openaiGen input with
      | some resp => (unmarshalContents (preprocessModelResponse resp)).getD []
      | none => []
    else []

/-- The inline provider orchestration of `Run`: Gemini first; OpenAI is
consulted only when Gemini's branch left `contents` empty and an OpenAI key
is configured. -/
def orchestrateModels (env : RunEnv) (input : String) : List Content :=
  let contents := geminiAttempt env input
  if contents.isEmpty && env.openaiKey.isSome then openaiAttempt env input
  else contents

/-- The save loop of `Run` over the extracted records of one source: each
record is attempted in order; a success is counted and collected, a failure
only logged.  (`allScrapedContent` receives exactly the per-source successes,
so it is appended here directly.) -/
def saveLoop (env : RunEnv) : List Content → RunState → RunState
  | [], st => st
  | c :: cs, st =>
    if env.saveOk st.attempts then
      saveLoop env cs
        { saved := st.saved ++ [c], total := st.total + 1,
          allScraped := st.allScraped ++ [c], attempts := st.attempts + 1 }
    else
      saveLoop env cs { st with attempts := st.attempts + 1 }

/-- One source of `Run` (after the cancellation checkpoint): scrape — on
error skip the source; orchestrate the models; when records were extracted,
attach the source URL to each and run the save loop. -/
def processSource (env : RunEnv) (url : String) (st : RunState) : RunState :=
  match env.scrape url with
  | none => st
  | some text =>
    let contents := orchestrateModels env (buildContentExtractionPrompt ++ text)
    if contents.isEmpty then st
    else saveLoop env (contents.map (fun c => { c with sourceURL := some url })) st

/-- The source loop of `Run`: `k` is the index of the next source (the
cancellation oracle is indexed by it); `true` in the result means the loop
returned `ctx.Err()` at a checkpoint. -/
def runLoop (env : RunEnv) : Nat → List String → RunState → RunState × Bool
  | _, [], st => (st, false)
  | k, url :: rest, st =>
    if env.cancelledAt k then (st, true)
    else runLoop env (k + 1) rest (processSource env url st)

def defaultSourceURL : String := "https://nkiri.com/"

/-- `ContentScraperJob.Run`: default the source list when empty, iterate the
sources, and — only on normal completion — emit the summary and hand the
collected records to the email notifier when sending is enabled and the
collection is non-empty (`se` collapses `sendEmails && emailNotifier != nil`). -/
def runContentScraperJob (env : RunEnv) (se : Bool) (sources : List String) :
    RunState × RunOutcome :=
  let srcs := if sources.isEmpty then [defaultSourceURL] else sources
  let r := runLoop env 0 srcs initialRunState
  if r.2 then (r.1, RunOutcome.cancelled)
  else
    (r.1, RunOutcome.completed
      (if se && !r.1.allScraped.isEmpty then some (r.1.allScraped, srcs) else none))

/-! ### `ModelManager.GenerateWithBestModel` and `detectModelType` -/

inductive ModelType where
  | openai : ModelType
  | gemini : ModelType
deriving Repr, DecidableEq

structure ModelConfig where
  apiKey : String
  baseURL : String := ""
  modelName : String
  timeout : Nat := 0
  maxRetries : Nat := 0

/-- A created model instance: its reported name and its
`GenerateTextWithOptions` behaviour (the `options` argument does not affect
the claims and is folded into the oracle). -/
structure GenModel where
  name : String
  generate : String → Except String String

/-- `detectModelType` (empty string result becomes `none`). -/
def detectModelType (modelName : String) : Option ModelType :=
  let n := modelName.data.map Char.toLower
  if goContains n "gpt".data || goContains n "openai".data then some ModelType.openai
  else if goContains n "gemini".data then some ModelType.gemini
  else none

/-- The loop of `GenerateWithBestModel`, carrying the last error seen. -/
def gwbmGo (create : ModelType → ModelConfig → Except String GenModel)
    (prompt : String) : List ModelConfig → Option String → Except String (String × String)
  | [], some e => Except.error ("all models failed, last error: " ++ e)
  | [], none => Except.error "no valid model configurations provided"
  | cfg :: rest, lastErr =>
    match detectModelType cfg.modelName with
    | none => gwbmGo create prompt rest lastErr
    | some t =>
      match create t cfg with
      | Except.error e => gwbmGo create prompt rest (some e)
      | Except.ok m =>
        match m.generate prompt with
        | Except.error e => gwbmGo create prompt rest (some e)
        | Except.ok result => Except.ok (result, m.name)

/-- `GenerateWithBestModel`: try each config in order (`create` abstracts
`GetOrCreateModel`); the first successful generation is returned with the
model's name; when none succeeds the function returns an error. -/
def generateWithBestModel (create : ModelType → ModelConfig → Except String GenModel)
    (prompt : String) (configs : List ModelConfig) : Except String (String × String) :=
  gwbmGo create prompt configs none

/-! ### `Scheduler.AddJob` and `AddMorningEveningJob`

A job is identified by its name; `cronAccepts` abstracts the cron spec
parser of `cron.AddFunc`.  Go mutates the receiver before returning an
error from the second `AddJob`, so the embedding returns the new state
together with the optional error. -/

structure SchedulerState where
  jobs : List String
  entries : List (String × String)
deriving Repr, DecidableEq

/-- `AddJob`: refuse a duplicate name, then register the cron entry and the
name (both, exactly when the cron spec is accepted). -/
def addJob (cronAccepts : String → Bool) (st : SchedulerState) (spec : String)
    (name : String) : SchedulerState × Option String :=
  if name ∈ st.jobs then
    (st, some ("job " ++ name ++ " already registered"))
  else if cronAccepts spec then
    ({ jobs := st.jobs ++ [name], entries := st.entries ++ [(spec, name)] }, none)
  else
    (st, some ("failed to add job " ++ name))

def morningSpec : String := "0 0 10 * * *"
def eveningSpec : String := "0 0 17 * * *"

/-- `AddMorningEveningJob`: `AddJob` at 10:00, then — only on success —
`AddJob` the same job at 17:00. -/
def addMorningEveningJob (cronAccepts : String → Bool) (st : SchedulerState)
    (name : String) : SchedulerState × Option String :=
  let r1 := addJob cronAccepts st morningSpec name
  match r1.2 with
  | some e => (r1.1, some e)
  | none => addJob cronAccepts r1.1 eveningSpec name

/-! ## Theorems -/

/-- A successful match of `"<label>":\s*"([^"]+)"` captures at least one character. -/
theorem tryFieldAt_some_ne_nil (label s : List Char) (v : List Char)
    (h : tryFieldAt label s = some v) : v ≠ [] := by
  unfold tryFieldAt at h
  split at h
  · split at h
    · split at h
      · split at h
        · exact absurd h (by simp)
        · next hne =>
          split at h
          · split at h
            · cases h
              intro hv
              simp [hv] at hne
            · exact absurd h (by simp)
          · exact absurd h (by simp)
      · exact absurd h (by simp)
    · exact absurd h (by simp)
  · exact absurd h (by simp)

/-- Defining equation of `scanFor` at positive fuel. -/
theorem scanFor_succ {α : Type} (try1 : List Char → Option α) (fuel : Nat) (s : List Char) :
    scanFor try1 (fuel + 1) s =
      match try1 s with
      | some v => some v
      | none =>
        match s with
        | [] => none
        | _ :: rest => scanFor try1 fuel rest := rfl

/-- Scanning preserves any property of the per-position matcher's results. -/
theorem scanFor_some {α : Type} (P : α → Prop) (try1 : List Char → Option α)
    (hP : ∀ s v, try1 s = some v → P v) :
    ∀ (fuel : Nat) (s : List Char) (v : α), scanFor try1 fuel s = some v → P v := by
  intro fuel
  induction fuel with
  | zero => intro s v h; simp [scanFor] at h
  | succ n ih =>
    intro s v h
    rw [scanFor_succ] at h
    cases htry : try1 s with
    | some w =>
      rw [htry] at h
      cases h
      exact hP s v htry
    | none =>
      rw [htry] at h
      cases s with
      | nil => simp at h
      | cons c rest => exact ih rest v h

theorem findQuotedVal_some_ne_nil (label s v : List Char)
    (h : findQuotedVal label s = some v) : v ≠ [] :=
  scanFor_some (fun v => v ≠ []) (tryFieldAt label)
    (fun s v hv => tryFieldAt_some_ne_nil label s v hv) (s.length + 1) s v h

/-- Characterization of the per-object validation of `extractContentManually`. -/
theorem validateObject_eq_some_iff (obj : List Char) (c : Content) :
    validateObject obj = some c ↔
      ∃ t, findQuotedVal titleLabel obj = some t ∧
      ∃ cat, findQuotedVal categoryLabel obj = some cat ∧ String.mk cat ≠ "Korean" ∧
      ∃ ty, findQuotedVal typeLabel obj = some ty ∧
        (String.mk ty = "movie" ∨ String.mk ty = "series") ∧
        c = { title := String.mk t,
              year := (findYearVal obj).map (fun d => (digitsToNat d : Int)),
              category := String.mk cat,
              extraInfo := ((findQuotedVal extraInfoLabel obj).map String.mk).getD "",
              type := String.mk ty,
              rating := (findRatingVal obj).map String.mk,
              sourceURL := none } := by
  unfold validateObject
  cases h1 : findQuotedVal titleLabel obj with
  | none => simp [h1]
  | some t =>
    cases h2 : findQuotedVal categoryLabel obj with
    | none => simp [h2]
    | some cat =>
      by_cases hk : String.mk cat = "Korean"
      · simp [hk]
      · cases h3 : findQuotedVal typeLabel obj with
        | none => simp [h3, hk]
        | some ty =>
          by_cases hty : String.mk ty = "movie" ∨ String.mk ty = "series"
          · simp only [if_neg hk, if_pos hty]
            constructor
            · intro h
              cases h
              exact ⟨t, rfl, cat, rfl, hk, ty, rfl, hty, rfl⟩
            · rintro ⟨t', ht', cat', hcat', -, ty', hty', -, hc⟩
              cases ht'
              cases hcat'
              cases hty'
              rw [hc]
          · simp only [if_neg hk, if_neg hty]
            constructor
            · intro h; cases h
            · rintro ⟨t', ht', cat', hcat', -, ty', hty', hty2, -⟩
              cases hty'
              exact absurd hty2 hty

/-- C4. The validator accepts a field bag exactly when a non-empty title, a
non-empty category other than `"Korean"` (case-sensitive), and a type equal
to `"movie"` or `"series"` are found; `extra_info` defaults to `""` when
absent, and a missing/unparsable year or rating only leaves that field
absent, never rejecting the record. -/
theorem c4_validator_rules (obj : List Char) (c : Content) :
    validateObject obj = some c ↔
      ∃ t, findQuotedVal titleLabel obj = some t ∧ t ≠ [] ∧
      ∃ cat, findQuotedVal categoryLabel obj = some cat ∧ cat ≠ [] ∧
        String.mk cat ≠ "Korean" ∧
      ∃ ty, findQuotedVal typeLabel obj = some ty ∧
        (String.mk ty = "movie" ∨ String.mk ty = "series") ∧
        c = { title := String.mk t,
              year := (findYearVal obj).map (fun d => (digitsToNat d : Int)),
              category := String.mk cat,
              extraInfo := ((findQuotedVal extraInfoLabel obj).map String.mk).getD "",
              type := String.mk ty,
              rating := (findRatingVal obj).map String.mk,
              sourceURL := none } := by
  rw [validateObject_eq_some_iff]
  constructor
  · rintro ⟨t, ht, cat, hcat, hk, ty, hty, hmv, hc⟩
    exact ⟨t, ht, findQuotedVal_some_ne_nil _ _ _ ht,
           cat, hcat, findQuotedVal_some_ne_nil _ _ _ hcat, hk,
           ty, hty, hmv, hc⟩
  · rintro ⟨t, ht, -, cat, hcat, -, hk, ty, hty, hmv, hc⟩
    exact ⟨t, ht, cat, hcat, hk, ty, hty, hmv, hc⟩

/-- C1 (amended). Tier A — the manual regex extraction — never emits a record
whose category is `"Korean"`; the unmarshal fallback performs no such filter
(see the counterexample). -/
theorem c1_tierA_excludes_korean (s : String) (c : Content)
    (h : c ∈ extractContentManually s) : c.category ≠ "Korean" := by
  unfold extractContentManually at h
  obtain ⟨b, _, hv⟩ := List.mem_filterMap.mp h
  obtain ⟨t, -, cat, -, hk, ty, -, -, hc⟩ := (validateObject_eq_some_iff b c).mp hv
  rw [hc]
  exact hk

/-- Witness for C1's amended theorem at a concrete extraction. -/
theorem c1_tierA_witness :
    ({ title := "M", year := none, category := "Hollywood", extraInfo := "",
       type := "movie", rating := none, sourceURL := none } : Content) ∈
      extractContentManually "\x7b\"title\":\"M\",\"category\":\"Hollywood\",\"type\":\"movie\"\x7d" ∧
    ({ title := "M", year := none, category := "Hollywood", extraInfo := "",
       type := "movie", rating := none, sourceURL := none } : Content).category ≠ "Korean" :=
  ⟨by decide,
   c1_tierA_excludes_korean
     "\x7b\"title\":\"M\",\"category\":\"Hollywood\",\"type\":\"movie\"\x7d"
     { title := "M", year := none, category := "Hollywood", extraInfo := "",
       type := "movie", rating := none, sourceURL := none }
     (by decide)⟩

/-- Counterexample to C1 as stated: a response whose only record has
category `"Korean"` passes through the fallback tier unfiltered and appears
in the pipeline's final output. -/
theorem c1_counterexample :
    (normalizeResponseT "[\x7b\"title\":\"A\",\"category\":\"Korean\",\"type\":\"series\"\x7d]").1 =
      [{ title := "A", year := none, category := "Korean", extraInfo := "",
         type := "series", rating := none, sourceURL := none }] := by
  decide

/-- C6. If the manual extraction (Tier A) yields at least one record, the
pipeline's output is exactly that record sequence and the
preprocess/unmarshal fallback (Tiers B and C) is not taken. -/
theorem c6_tier_short_circuit (s : String)
    (h : extractContentManually s ≠ []) :
    normalizeResponseT s = (extractContentManually s, ExtractionPath.manual) := by
  unfold normalizeResponseT
  have hm : (extractContentManually s).isEmpty = false := by
    cases hx : extractContentManually s with
    | nil => exact absurd hx h
    | cons a l => simp
  simp [hm]

/-- Witness for C6 at a concrete response with a Tier-A record. -/
theorem c6_witness :
    extractContentManually "\x7b\"title\":\"M\",\"category\":\"Hollywood\",\"type\":\"movie\"\x7d" ≠ [] ∧
    normalizeResponseT "\x7b\"title\":\"M\",\"category\":\"Hollywood\",\"type\":\"movie\"\x7d" =
      (extractContentManually "\x7b\"title\":\"M\",\"category\":\"Hollywood\",\"type\":\"movie\"\x7d",
       ExtractionPath.manual) :=
  ⟨by decide, c6_tier_short_circuit _ (by decide)⟩

/-- C9. The pipeline is a total function into record lists: its output is
either Tier A's records or whatever the preprocess/unmarshal fallback
produces (with `[]` for a parse error); when no Tier-C fragment survives,
`reformatJSON` yields `"[]"`, which unmarshals to the empty record list. -/
theorem c9_graceful_degradation :
    (∀ s : String,
       (normalizeResponseT s).1 = extractContentManually s ∨
       (normalizeResponseT s).1 = (unmarshalContents (preprocessModelResponse s)).getD []) ∧
    (∀ t : String, reformatValidObjects t = [] → reformatJSON t = "[]") ∧
    unmarshalContents "[]" = some [] := by
  refine ⟨fun s => ?_, fun t h => ?_, by decide⟩
  · unfold normalizeResponseT
    cases hm0 : (extractContentManually s).isEmpty
    · simp [hm0]
    · simp only [hm0, if_true]
      cases hu : unmarshalContents (preprocessModelResponse s) <;> simp [hu]
  · simp [reformatJSON, h]

/-- Modelled from the amended claim's words: Tier B strips the fences;
isolates the slice from the first `[` to the last `]`; when no `[` occurs at
all, wraps a single `{…}` object as a one-element array (no repairs applied
to it); yields the empty result when neither form can be isolated (including
a `[` with no `]` after it); applies the fixed repair sequence, in order, to
the isolated slice; and on parse failure applies the narrower repair pass
followed by exactly one reparse (falling through to Tier C afterwards). -/
def tierBSpecAmended (s : String) : String :=
  let t := stripFences s.data
  match firstIdxOf '[' t, lastIdxOf ']' t with
  | some si, some ei =>
    if si < ei then
      let repaired := repairSequence (sliceChars t si (ei + 1))
      if unmarshalArrayOk (String.mk repaired) then String.mk repaired
      else
        let narrowed := narrowRepair repaired
        if unmarshalArrayOk (String.mk narrowed) then String.mk narrowed
        else reformatJSON (String.mk narrowed)
    else "[]"
  | some _, none => "[]"
  | none, _ =>
    match firstIdxOf '{' t, lastIdxOf '}' t with
    | some os, some oe =>
      if os < oe then String.mk ('[' :: (sliceChars t os (oe + 1) ++ [']'])) else "[]"
    | some _, none => "[]"
    | none, _ => "[]"

/-- Modelled from C5 as stated: the isolation step with the object fallback
available whenever no `[`…`]` pair exists (`none` = the tier yields an empty
result at this step). -/
def tierBClaimIsolate (s : String) : Option (List Char) :=
  let t := stripFences s.data
  let arrSlice : Option (List Char) :=
    match firstIdxOf '[' t, lastIdxOf ']' t with
    | some si, some ei => if si < ei then some (sliceChars t si (ei + 1)) else none
    | _, _ => none
  match arrSlice with
  | some sl => some sl
  | none =>
    match firstIdxOf '{' t, lastIdxOf '}' t with
    | some os, some oe =>
      if os < oe then some ('[' :: (sliceChars t os (oe + 1) ++ [']'])) else none
    | _, _ => none

/-- C5 (amended). `preprocessModelResponse` implements Tier B as described,
with the object fallback reachable only when no `[` occurs: fences stripped,
first-`[`-to-last-`]` slice isolated, the repair sequence applied in order,
and on parse failure one narrower repair pass with exactly one reparse. -/
theorem c5_tierB_structure (s : String) :
    preprocessModelResponse s = tierBSpecAmended s := by
  unfold preprocessModelResponse preprocessCore tierBSpecAmended
  cases h1 : firstIdxOf '[' (stripFences s.data) with
  | none =>
    cases h3 : firstIdxOf '{' (stripFences s.data) with
    | none => simp [h1, h3]
    | some os =>
      cases h4 : lastIdxOf '}' (stripFences s.data) with
      | none => simp [h1, h3, h4]
      | some oe =>
        by_cases h5 : os < oe <;> simp [h1, h3, h4, h5]
  | some si =>
    cases h2 : lastIdxOf ']' (stripFences s.data) with
    | none => simp [h1, h2]
    | some ei =>
      by_cases h6 : ei ≤ si
      · have h7 : ¬ si < ei := by omega
        simp [h1, h2, h6, h7]
      · have h7 : si < ei := by omega
        have h8 : ¬ ei ≤ si := h6
        simp only [h1, h2, if_neg h8, if_pos h7]
        split
        · rfl
        · split <;> rfl

/-- Counterexample to C5 as stated: with a `[` present but no `]`, the code
yields the empty result, while the claim's isolation step mandates wrapping
the `{…}` object as a one-element array. -/
theorem c5_counterexample :
    preprocessModelResponse "[ \x7b\"title\":\"T\"\x7d" = "[]" ∧
    tierBClaimIsolate "[ \x7b\"title\":\"T\"\x7d" = some "[\x7b\"title\":\"T\"\x7d]".data ∧
    (tierBClaimIsolate "[ \x7b\"title\":\"T\"\x7d").map String.mk ≠
      some (preprocessModelResponse "[ \x7b\"title\":\"T\"\x7d") := by
  refine ⟨by decide, by decide, by decide⟩

/-- An absent key means no stored row matches it. -/
theorem hasContentKey_false_iff (rows : List ContentRow) (c : Content) :
    hasContentKey rows c = false ↔ ∀ r ∈ rows, keyMatches r c = false := by
  unfold hasContentKey
  rw [List.any_eq_false]
  constructor
  · intro h r hr
    exact Bool.eq_false_iff.mpr (h r hr)
  · intro h r hr
    exact Bool.eq_false_iff.mp (h r hr)

/-- Two contents with the same natural key match the same rows. -/
theorem keyMatches_congr (r : ContentRow) (c c2 : Content)
    (h1 : c2.title = c.title) (h2 : c2.type = c.type) :
    keyMatches r c2 = keyMatches r c := by
  unfold keyMatches
  rw [h1, h2]

/-- C7. The upsert by natural key: a missing key inserts a fresh row whose
three timestamps are all `now` and whose fields are the record's; a present
key updates only year, category, extra_info, rating, source_url and
updated_at on the matching rows, leaving created_at, scraped_at, title and
type as stored; hence saving the same key twice keeps the first save's
created_at/scraped_at while year and updated_at come from the second save. -/
theorem c7_upsert_frame (rows : List ContentRow) (c c2 : Content) (t1 t2 : Nat) :
    (hasContentKey rows c = false →
       saveContent rows c t1 =
         rows ++ [{ content := c, scrapedAt := t1, createdAt := t1, updatedAt := t1 }]) ∧
    (hasContentKey rows c = true →
       saveContent rows c t1 =
         rows.map (fun r => if keyMatches r c then updateRow r c t1 else r)) ∧
    (∀ r : ContentRow,
       (updateRow r c t1).createdAt = r.createdAt ∧
       (updateRow r c t1).scrapedAt = r.scrapedAt ∧
       (updateRow r c t1).content.title = r.content.title ∧
       (updateRow r c t1).content.type = r.content.type ∧
       (updateRow r c t1).content.year = c.year ∧
       (updateRow r c t1).content.category = c.category ∧
       (updateRow r c t1).content.extraInfo = c.extraInfo ∧
       (updateRow r c t1).content.rating = c.rating ∧
       (updateRow r c t1).content.sourceURL = c.sourceURL ∧
       (updateRow r c t1).updatedAt = t1) ∧
    (hasContentKey rows c = false → c2.title = c.title → c2.type = c.type →
       saveContent (saveContent rows c t1) c2 t2 =
         rows ++ [{ content := c2, scrapedAt := t1, createdAt := t1, updatedAt := t2 }]) := by
  refine ⟨fun h => by simp [saveContent, h], fun h => by simp [saveContent, h],
          fun r => by simp [updateRow], fun h h1 h2 => ?_⟩
  have hrow : saveContent rows c t1 =
      rows ++ [{ content := c, scrapedAt := t1, createdAt := t1, updatedAt := t1 }] := by
    simp [saveContent, h]
  rw [hrow]
  have hkm : keyMatches { content := c, scrapedAt := t1, createdAt := t1, updatedAt := t1 } c2 = true := by
    simp [keyMatches, h1, h2]
  have hhk : hasContentKey
      (rows ++ [{ content := c, scrapedAt := t1, createdAt := t1, updatedAt := t1 }]) c2 = true := by
    unfold hasContentKey
    rw [List.any_append]
    simp [hkm, hasContentKey]
  unfold saveContent
  rw [hhk]
  simp only [if_true, List.map_append, List.map_cons, List.map_nil, hkm]
  have hmap : rows.map (fun r => if keyMatches r c2 then updateRow r c2 t2 else r) = rows := by
    have hall := (hasContentKey_false_iff rows c).mp h
    calc rows.map (fun r => if keyMatches r c2 then updateRow r c2 t2 else r)
        = rows.map id := by
          apply List.map_congr_left
          intro r hr
          rw [keyMatches_congr r c c2 h1 h2, hall r hr]
          simp
      _ = rows := List.map_id rows
  rw [hmap]
  have hupd : updateRow { content := c, scrapedAt := t1, createdAt := t1, updatedAt := t1 } c2 t2 =
      { content := c2, scrapedAt := t1, createdAt := t1, updatedAt := t2 } := by
    unfold updateRow
    have : ({ title := c.title, year := c2.year, category := c2.category,
              extraInfo := c2.extraInfo, type := c.type, rating := c2.rating,
              sourceURL := c2.sourceURL } : Content) = c2 := by
      cases c2
      simp_all
    simp only [this]
  rw [hupd]

/-- C10. `AddMorningEveningJob` always returns an error: when the job's name
is fresh and the 10:00 spec is accepted, the first `AddJob` registers the
name, so the second `AddJob` (17:00) fails with "already registered" — and
in no case is the job registered under the 17:00 schedule. -/
theorem c10_morning_evening_always_errors (acc : String → Bool)
    (st : SchedulerState) (name : String) :
    (addMorningEveningJob acc st name).2.isSome = true ∧
    (name ∉ st.jobs → acc morningSpec = true →
       (addMorningEveningJob acc st name).2 =
         some ("job " ++ name ++ " already registered") ∧
       (addMorningEveningJob acc st name).1 =
         { jobs := st.jobs ++ [name], entries := st.entries ++ [(morningSpec, name)] }) ∧
    ((eveningSpec, name) ∉ st.entries →
       (eveningSpec, name) ∉ (addMorningEveningJob acc st name).1.entries) := by
  by_cases h1 : name ∈ st.jobs
  · refine ⟨?_, fun hn _ => absurd h1 hn, fun he => ?_⟩
    · simp [addMorningEveningJob, addJob, h1]
    · simp [addMorningEveningJob, addJob, h1, he]
  · by_cases h2 : acc morningSpec = true
    · have hmem : name ∈ st.jobs ++ [name] := by simp
      have hne : (eveningSpec, name) ≠ (morningSpec, name) := by
        simp [morningSpec, eveningSpec]
      refine ⟨?_, fun _ _ => ⟨?_, ?_⟩, fun he => ?_⟩
      · simp [addMorningEveningJob, addJob, h1, h2, hmem]
      · simp [addMorningEveningJob, addJob, h1, h2, hmem]
      · simp [addMorningEveningJob, addJob, h1, h2, hmem]
      · simp [addMorningEveningJob, addJob, h1, h2, hmem, he, hne]
    · have h2f : acc morningSpec = false := Bool.eq_false_iff.mpr h2
      refine ⟨?_, fun _ hacc => absurd hacc h2, fun he => ?_⟩
      · simp [addMorningEveningJob, addJob, h1, h2f]
      · simp [addMorningEveningJob, addJob, h1, h2f, he]

/-- A provider configuration that yields no successful generation: its model
type is undetected, its creation fails, or its generation call fails. -/
def providerFails (create : ModelType → ModelConfig → Except String GenModel)
    (prompt : String) (cfg : ModelConfig) : Prop :=
  match detectModelType cfg.modelName with
  | none => True
  | some t =>
    match create t cfg with
    | Except.error _ => True
    | Except.ok m => ∃ e, m.generate prompt = Except.error e

/-- When every configuration fails, the loop of `GenerateWithBestModel`
returns an error for every carried last-error. -/
theorem gwbmGo_all_fail (create : ModelType → ModelConfig → Except String GenModel)
    (prompt : String) :
    ∀ (cfgs : List ModelConfig), (∀ cfg ∈ cfgs, providerFails create prompt cfg) →
      ∀ lastErr, ∃ e, gwbmGo create prompt cfgs lastErr = Except.error e := by
  intro cfgs
  induction cfgs with
  | nil =>
    intro _ lastErr
    cases lastErr with
    | none => exact ⟨_, rfl⟩
    | some e => exact ⟨_, rfl⟩
  | cons cfg rest ih =>
    intro hall lastErr
    have hcfg := hall cfg (by simp)
    have hrest : ∀ c ∈ rest, providerFails create prompt c :=
      fun c hc => hall c (by simp [hc])
    unfold gwbmGo
    unfold providerFails at hcfg
    cases hdet : detectModelType cfg.modelName with
    | none =>
      dsimp only
      exact ih hrest lastErr
    | some t =>
      rw [hdet] at hcfg
      dsimp only at hcfg
      dsimp only
      cases hcr : create t cfg with
      | error e =>
        dsimp only
        exact ih hrest (some e)
      | ok m =>
        rw [hcr] at hcfg
        dsimp only at hcfg
        dsimp only
        obtain ⟨e, hgen⟩ := hcfg
        simp only [hgen]
        exact ih hrest (some e)

/-- C3 (amended). The job's inline orchestration uses the records of the
first provider whose normalized result is non-empty (Gemini, then OpenAI); a
provider failure there behaves exactly like an empty result and nothing is
escalated, an overall empty result carrying no provider identity.  The
standalone `GenerateWithBestModel`, by contrast, escalates an error to its
caller whenever every provider fails (see the counterexample). -/
theorem c3_provider_fallback :
    (∀ (env : RunEnv) (input : String),
       geminiAttempt env input ≠ [] →
         orchestrateModels env input = geminiAttempt env input) ∧
    (∀ (env : RunEnv) (input : String),
       geminiAttempt env input = [] →
         orchestrateModels env input = openaiAttempt env input) ∧
    (∀ (create : ModelType → ModelConfig → Except String GenModel) (prompt : String)
       (cfgs : List ModelConfig),
       (∀ cfg ∈ cfgs, providerFails create prompt cfg) →
         ∃ e, generateWithBestModel create prompt cfgs = Except.error e) := by
  refine ⟨fun env input h => ?_, fun env input h => ?_,
          fun create prompt cfgs hall => gwbmGo_all_fail create prompt cfgs hall none⟩
  · unfold orchestrateModels
    have : (geminiAttempt env input).isEmpty = false := by
      cases hx : geminiAttempt env input with
      | nil => exact absurd hx h
      | cons a l => simp
    simp [this]
  · unfold orchestrateModels
    rw [h]
    cases hk : env.openaiKey with
    | none => simp [openaiAttempt, hk]
    | some k => simp [hk]

/-- Counterexample to C3 as stated: a single failing provider makes
`GenerateWithBestModel` return an error to its caller instead of an empty
result — provider failure is escalated. -/
theorem c3_counterexample :
    generateWithBestModel (fun _ _ => Except.error "auth") "p"
      [{ apiKey := "key", modelName := "gemini-1.5-flash" }] =
      Except.error "all models failed, last error: auth" := by
  rfl

/-- `runLoop` without cancellation folds `processSource` over every source
and reports no cancellation — no failure oracle can end the loop early. -/
theorem runLoop_no_cancel (env : RunEnv)
    (hc : ∀ j, env.cancelledAt j = false) :
    ∀ (srcs : List String) (k : Nat) (st : RunState),
      runLoop env k srcs st =
        (srcs.foldl (fun st url => processSource env url st) st, false) := by
  intro srcs
  induction srcs with
  | nil => intro k st; rfl
  | cons u rest ih =>
    intro k st
    unfold runLoop
    rw [hc k]
    simp only [Bool.false_eq_true, if_false, List.foldl_cons]
    exact ih (k + 1) (processSource env u st)

/-- `runLoop` with the first cancellation at index `i` folds `processSource`
over exactly the first `i` sources and reports cancellation. -/
theorem runLoop_first_cancel (env : RunEnv) :
    ∀ (srcs : List String) (k i : Nat) (st : RunState),
      i < srcs.length →
      env.cancelledAt (k + i) = true →
      (∀ j, j < i → env.cancelledAt (k + j) = false) →
      runLoop env k srcs st =
        ((srcs.take i).foldl (fun st url => processSource env url st) st, true) := by
  intro srcs
  induction srcs with
  | nil => intro k i st hi; simp at hi
  | cons u rest ih =>
    intro k i st hi hcancel hfirst
    cases i with
    | zero =>
      unfold runLoop
      rw [Nat.add_zero] at hcancel
      rw [hcancel]
      simp
    | succ n =>
      unfold runLoop
      have h0 : env.cancelledAt k = false := by
        have := hfirst 0 (Nat.succ_pos n)
        simpa using this
      rw [h0]
      simp only [Bool.false_eq_true, if_false, List.take_succ_cons, List.foldl_cons]
      have hcancel' : env.cancelledAt (k + 1 + n) = true := by
        have : k + 1 + n = k + (n + 1) := by omega
        rw [this]
        exact hcancel
      have hfirst' : ∀ j, j < n → env.cancelledAt (k + 1 + j) = false := by
        intro j hj
        have : k + 1 + j = k + (j + 1) := by omega
        rw [this]
        exact hfirst (j + 1) (by omega)
      exact ih (k + 1) n (processSource env u st) (by simpa using hi) hcancel' hfirst'

/-- C2 (amended). When cancellation is first observed at the checkpoint
before source `i`, the run stops there: its final state is exactly the state
accumulated from the first `i` sources (every record persisted before the
checkpoint is still in it), and the run returns the cancellation error —
the summary and the notification step are skipped, not executed. -/
theorem c2_cancellation_behaviour (env : RunEnv) (se : Bool) (sources : List String)
    (i : Nat) (hne : sources ≠ []) (hi : i < sources.length)
    (hc : env.cancelledAt i = true)
    (hfirst : ∀ j, j < i → env.cancelledAt j = false) :
    runContentScraperJob env se sources =
      ((sources.take i).foldl (fun st url => processSource env url st) initialRunState,
       RunOutcome.cancelled) := by
  unfold runContentScraperJob
  have hse : sources.isEmpty = false := by
    cases sources with
    | nil => exact absurd rfl hne
    | cons a l => rfl
  rw [hse]
  simp only [Bool.false_eq_true, if_false]
  rw [runLoop_first_cancel env sources 0 i initialRunState hi (by simpa using hc)
        (fun j hj => by simpa using hfirst j hj)]
  simp

/-- A concrete run environment: two sources, one Gemini record extracted and
saved from the first, cancellation firing at the checkpoint before the
second source. -/
def envC : RunEnv :=
  { cancelledAt := fun i => decide (1 ≤ i),
    scrape := fun _ => some "page text",
    geminiKey := some "k", geminiCreateOk := true,
    geminiGen := fun _ =>
      some "[\x7b\"title\":\"B\",\"category\":\"Hollywood\",\"type\":\"movie\"\x7d]",
    openaiKey := none, openaiCreateOk := false, openaiGen := fun _ => none,
    saveOk := fun _ => true }

/-- Witness for C2's amended theorem at the concrete environment. -/
theorem c2_witness :
    runContentScraperJob envC true ["u1", "u2"] =
      ((["u1", "u2"].take 1).foldl (fun st url => processSource envC url st) initialRunState,
       RunOutcome.cancelled) :=
  c2_cancellation_behaviour envC true ["u1", "u2"] 1 (by decide) (by decide) (by decide)
    (fun j hj => by
      have hj0 : j = 0 := Nat.lt_one_iff.mp hj
      rw [hj0]
      rfl)

/-- Counterexample to C2 as stated: with one record already persisted and a
non-empty collection, a cancelled run returns the cancellation error without
the completed-run finalization — the notification collaborator is never
handed the collected records (only `RunOutcome.completed` carries a
notification payload). -/
theorem c2_counterexample :
    (runContentScraperJob envC true ["u1", "u2"]).2 = RunOutcome.cancelled ∧
    (runContentScraperJob envC true ["u1", "u2"]).1.saved ≠ [] := by
  exact ⟨by decide, by decide⟩

/-- The records a save loop persists: exactly those whose save attempt (by
running attempt counter) succeeds. -/
def savedSelection (ok : Nat → Bool) : Nat → List Content → List Content
  | _, [] => []
  | a, c :: cs =>
    if ok a then c :: savedSelection ok (a + 1) cs else savedSelection ok (a + 1) cs

/-- Characterization of the save loop: one attempt per record in order, a
failure skipping only that record. -/
theorem saveLoop_characterization (env : RunEnv) :
    ∀ (cs : List Content) (st : RunState),
      (saveLoop env cs st).saved = st.saved ++ savedSelection env.saveOk st.attempts cs ∧
      (saveLoop env cs st).allScraped =
        st.allScraped ++ savedSelection env.saveOk st.attempts cs ∧
      (saveLoop env cs st).attempts = st.attempts + cs.length ∧
      (saveLoop env cs st).total =
        st.total + (savedSelection env.saveOk st.attempts cs).length := by
  intro cs
  induction cs with
  | nil => intro st; simp [saveLoop, savedSelection]
  | cons c rest ih =>
    intro st
    unfold saveLoop savedSelection
    cases hs : env.saveOk st.attempts
    · simp only [Bool.false_eq_true, if_false]
      have h4 := ih { st with attempts := st.attempts + 1 }
      simp only at h4
      refine ⟨h4.1, h4.2.1, ?_, h4.2.2.2⟩
      rw [h4.2.2.1, List.length_cons]
      omega
    · simp only [if_true]
      have h4 := ih { saved := st.saved ++ [c], total := st.total + 1,
                      allScraped := st.allScraped ++ [c], attempts := st.attempts + 1 }
      simp only at h4
      refine ⟨?_, ?_, ?_, ?_⟩
      · rw [h4.1]; simp
      · rw [h4.2.1]; simp
      · rw [h4.2.2.1, List.length_cons]; omega
      · rw [h4.2.2.2, List.length_cons]; omega

/-- C8. Error isolation of a run: a fetch failure leaves the state unchanged
for that source only; the save loop attempts every record, a failed save
skipping exactly that record; and — whatever the fetch, provider and save
oracles do — a run without cancellation processes every source and never
ends early. -/
theorem c8_error_isolation :
    (∀ (env : RunEnv) (url : String) (st : RunState),
       env.scrape url = none → processSource env url st = st) ∧
    (∀ (env : RunEnv) (cs : List Content) (st : RunState),
       (saveLoop env cs st).saved = st.saved ++ savedSelection env.saveOk st.attempts cs ∧
       (saveLoop env cs st).attempts = st.attempts + cs.length) ∧
    (∀ (env : RunEnv) (k : Nat) (srcs : List String) (st : RunState),
       (∀ j, env.cancelledAt j = false) →
       runLoop env k srcs st =
         (srcs.foldl (fun st url => processSource env url st) st, false)) ∧
    (∀ (env : RunEnv) (se : Bool) (sources : List String),
       (∀ j, env.cancelledAt j = false) →
       (runContentScraperJob env se sources).2 ≠ RunOutcome.cancelled) := by
  refine ⟨fun env url st h => ?_, fun env cs st => ?_, fun env k srcs st hc => ?_,
          fun env se sources hc => ?_⟩
  · unfold processSource
    rw [h]
  · exact ⟨(saveLoop_characterization env cs st).1, (saveLoop_characterization env cs st).2.2.1⟩
  · exact runLoop_no_cancel env hc srcs k st
  · unfold runContentScraperJob
    simp only [runLoop_no_cancel env hc]
    simp

end CinePulse
